import Mathlib

/-!
# pmemcheck: the region comparator of `pmc_include.h`

A shallow embedding of `struct pmem_st` and of the inline comparator
`cmp_pmem_st`, the ordering key of every region set of the persistent memory
checker, together with the properties the specification states about it.
The functions the header only declares (region sets, transactions) are
modelled from the specification and marked as such.
-/

namespace Pmemcheck

/-! ## Data model -/

/-- Number of values of the unsigned machine integers `Addr` and `ULong`
(their typedefs live outside `pmc_include.h`; both are 64 bits wide). -/
def ULONG_RANGE : Nat := 2 ^ 64

/-- The `enum store_state` of `struct pmem_st`. -/
inductive store_state where
  | STST_CLEAN
  | STST_DIRTY
  | STST_FLUSHED
  deriving DecidableEq

/-- The `struct pmem_st`: a single store to memory.  `context` stands for the
`ExeContext *` handle, which the checker never dereferences here. -/
structure pmem_st where
  addr : Nat
  size : Nat
  block_num : Nat
  value : Nat
  context : Nat
  state : store_state
  deriving DecidableEq

/-- A record whose `addr` and `size` are values of their 64-bit unsigned
types. -/
def pmem_st.wf (r : pmem_st) : Prop :=
  r.addr < ULONG_RANGE ∧ r.size < ULONG_RANGE

instance (r : pmem_st) : Decidable r.wf := by
  unfold pmem_st.wf; infer_instance

/-- The record invariant `size > 0` together with a 64-bit sum
`addr + size` that does not wrap around. -/
def pmem_st.proper (r : pmem_st) : Prop :=
  0 < r.size ∧ r.addr + r.size < ULONG_RANGE

instance (r : pmem_st) : Decidable r.proper := by
  unfold pmem_st.proper; infer_instance

/-- Address `x` is one of the bytes of `r`, the byte set taken over unbounded
integers: `r.addr ≤ x < r.addr + r.size`. -/
def pmem_st.has_byte (r : pmem_st) (x : Nat) : Prop :=
  r.addr ≤ x ∧ x < r.addr + r.size

instance (r : pmem_st) (x : Nat) : Decidable (r.has_byte x) := by
  unfold pmem_st.has_byte; infer_instance

/-- The two regions share at least one byte. -/
def share_byte (a b : pmem_st) : Prop :=
  ∃ x, a.has_byte x ∧ b.has_byte x

/-- Every byte of `a` has a lower address than every byte of `b`. -/
def entirely_before (a b : pmem_st) : Prop :=
  ∀ x y, a.has_byte x → b.has_byte y → x < y

/-- Every byte of `a` has a higher address than every byte of `b`. -/
def entirely_after (a b : pmem_st) : Prop :=
  ∀ x y, a.has_byte x → b.has_byte y → y < x

/-! ## The comparator -/

/-- The comparator `cmp_pmem_st(key, elem)` of `pmc_include.h`: both sums are
taken in 64-bit unsigned arithmetic, the result is the signed word `-1`, `1`
or `0`. -/
def cmp_pmem_st (key elem : pmem_st) : Int :=
  if (key.addr + key.size) % ULONG_RANGE ≤ elem.addr then
    -1
  else if key.addr ≥ (elem.addr + elem.size) % ULONG_RANGE then
    1
  else
    0

/-- The stored regions are sorted by the comparator: each element collates
before every later one (so they are pairwise non-overlapping). -/
def sorted_regions (l : List pmem_st) : Prop :=
  l.Pairwise (fun a b => cmp_pmem_st a b = -1)

/-- A record covering `[addr, addr + size)` with the remaining fields at
their zero values (`STST_CLEAN` is the first enumerator). -/
def mk_region (addr size : Nat) : pmem_st :=
  { addr := addr, size := size, block_num := 0, value := 0, context := 0,
    state := store_state.STST_CLEAN }

/-! ## The region set

`pmc_include.h` declares `is_in_mapping_set`, `add_region` and `remove_region`
over an `OSet` keyed by `cmp_pmem_st`; their bodies and the `OSet` type are
defined elsewhere. -/

/-- Modelled from the spec: the `OSet` type is defined outside
`pmc_include.h`.  The specification describes the region set as an ordered
container of address-range records whose ordering key is the three-way
comparator; here it is the sequence of stored records in container order. -/
abbrev OSet := List pmem_st

/-- Modelled from the spec: the body of `is_in_mapping_set` is missing, the
header gives its signature (result type `UWord`).  The specification's
`contains(range) -> bool` answers whether the range intersects any stored
range, that is, whether some stored record compares equal to it: 1 when it
does, 0 otherwise. -/
def is_in_mapping_set (region : pmem_st) (region_set : OSet) : Nat :=
  if region_set.any (fun e => decide (cmp_pmem_st region e = 0)) then 1 else 0

/-- Modelled from the spec: the body of `add_region` is missing.  The
specification's `insert(range)` puts the record into the ordered container at
its place in comparator order: behind the stored records it collates after
and in front of the first one it collates before.  An ordered set holds one
record per key, and a stored record the new one compares equal to (overlaps)
has the same key.  The specification does not say which record the set holds
then, so that record is given by the parameter `on_equal`, applied to the new
and the stored record. -/
def add_region (on_equal : pmem_st → pmem_st → pmem_st) (region : pmem_st) :
    OSet → OSet
  | [] => [region]
  | e :: rest =>
    if cmp_pmem_st region e = 1 then e :: add_region on_equal region rest
    else if cmp_pmem_st region e = -1 then region :: e :: rest
    else on_equal region e :: rest

/-- Insertion on an equal key leaves the stored record in place. -/
def keep_stored (_region stored : pmem_st) : pmem_st := stored

/-- Insertion on an equal key puts the new record in the place of the stored
one. -/
def take_new (region _stored : pmem_st) : pmem_st := region

/-- Insertion on an equal key stores the smallest range covering the new and
the stored record, computed in 64-bit unsigned arithmetic. -/
def merge_regions (region stored : pmem_st) : pmem_st :=
  { region with
    addr := min region.addr stored.addr,
    size := (max ((region.addr + region.size) % ULONG_RANGE)
                ((stored.addr + stored.size) % ULONG_RANGE)
              + ULONG_RANGE - min region.addr stored.addr) % ULONG_RANGE }

/-- Modelled from the spec: the body of `remove_region` is missing.  The
specification's `remove(range)` requires an exact range match: the first
stored record with the same `addr` and `size` is taken out, and a range that
is not stored leaves the set as it is. -/
def remove_region (region : pmem_st) : OSet → OSet
  | [] => []
  | e :: rest =>
    if e.addr = region.addr ∧ e.size = region.size then rest
    else e :: remove_region region rest

/-! ## The transaction manager

`pmc_include.h` declares the transaction operations; their bodies and the
table they work on are defined elsewhere. -/

/-- Modelled from the spec: the transaction record is missing from the
header.  A transaction is identified by an externally supplied identifier and
owns a set of registered memory regions `(base, size)` and a set of
participating thread identifiers. -/
structure tx_info where
  tx_id : Nat
  regions : List (Nat × Nat)
  threads : List Nat
  deriving DecidableEq

/-- Modelled from the spec: the transaction table is missing from the header;
it holds the records of the transactions that are currently `ACTIVE`. -/
abbrev tx_table := List tx_info

/-- Modelled from the spec: the usage errors a transaction operation reports
through its status (the header declares the results as `UInt`, and
`register_new_tx` as `void`; the values are not in the header). -/
inductive tx_error where
  | already_active
  | not_active
  | region_not_found
  | thread_not_found
  deriving DecidableEq

/-- Modelled from the spec: transaction `tx_id` is currently `ACTIVE`. -/
def tx_active (trans : tx_table) (tx_id : Nat) : Bool :=
  trans.any (fun t => t.tx_id == tx_id)

/-- Modelled from the spec: the body of `register_new_tx` is missing.
`UNREGISTERED → ACTIVE`; fails (reports "already active") if the id is
currently `ACTIVE`. -/
def register_new_tx (trans : tx_table) (tx_id : Nat) : Except tx_error tx_table :=
  if tx_active trans tx_id then .error .already_active
  else .ok ({ tx_id := tx_id, regions := [], threads := [] } :: trans)

/-- Modelled from the spec: the body of `remove_tx` is missing.
`ACTIVE → UNREGISTERED`; fails if the id is not `ACTIVE`. -/
def remove_tx (trans : tx_table) (tx_id : Nat) : Except tx_error tx_table :=
  if tx_active trans tx_id then .ok (trans.filter (fun t => t.tx_id != tx_id))
  else .error .not_active

/-- Modelled from the spec: the body of `add_obj_to_tx` is missing.  Adds the
region to the owned-region set of the transaction; fails if the id is not
`ACTIVE`. -/
def add_obj_to_tx (trans : tx_table) (tx_id base size : Nat) :
    Except tx_error tx_table :=
  if tx_active trans tx_id then
    .ok (trans.map (fun t =>
      if t.tx_id = tx_id then { t with regions := (base, size) :: t.regions } else t))
  else .error .not_active

/-- Modelled from the spec: the body of `remove_obj_from_tx` is missing.
Takes the region out of the owned-region set; fails if the id is not `ACTIVE`
or the region was never added. -/
def remove_obj_from_tx (trans : tx_table) (tx_id base size : Nat) :
    Except tx_error tx_table :=
  if tx_active trans tx_id then
    if trans.any (fun t => t.tx_id == tx_id && t.regions.contains (base, size)) then
      .ok (trans.map (fun t =>
        if t.tx_id = tx_id then { t with regions := t.regions.erase (base, size) }
        else t))
    else .error .region_not_found
  else .error .not_active

/-- Modelled from the spec: the body of `add_thread_to_tx` is missing.  Makes
the calling thread `tid` a participant; fails if the id is not `ACTIVE`. -/
def add_thread_to_tx (trans : tx_table) (tx_id tid : Nat) :
    Except tx_error tx_table :=
  if tx_active trans tx_id then
    .ok (trans.map (fun t =>
      if t.tx_id = tx_id then { t with threads := tid :: t.threads } else t))
  else .error .not_active

/-- Modelled from the spec: the body of `remove_thread_from_tx` is missing.
Ends the participation of the calling thread `tid`; fails if the id is not
`ACTIVE`. -/
def remove_thread_from_tx (trans : tx_table) (tx_id tid : Nat) :
    Except tx_error tx_table :=
  if tx_active trans tx_id then
    .ok (trans.map (fun t =>
      if t.tx_id = tx_id then { t with threads := t.threads.erase tid } else t))
  else .error .not_active

/-- A call of one of the transaction operations. -/
inductive tx_op where
  | register (tx_id : Nat)
  | remove (tx_id : Nat)
  | add_obj (tx_id base size : Nat)
  | remove_obj (tx_id base size : Nat)
  | add_thread (tx_id tid : Nat)
  | remove_thread (tx_id tid : Nat)
  deriving DecidableEq

/-- The result of one call on the table. -/
def tx_call (trans : tx_table) : tx_op → Except tx_error tx_table
  | .register tx_id => register_new_tx trans tx_id
  | .remove tx_id => remove_tx trans tx_id
  | .add_obj tx_id base size => add_obj_to_tx trans tx_id base size
  | .remove_obj tx_id base size => remove_obj_from_tx trans tx_id base size
  | .add_thread tx_id tid => add_thread_to_tx trans tx_id tid
  | .remove_thread tx_id tid => remove_thread_from_tx trans tx_id tid

/-- The table after one call: a failed call is rejected atomically and leaves
the table as it was. -/
def tx_step (trans : tx_table) (op : tx_op) : tx_table :=
  match tx_call trans op with
  | .ok trans2 => trans2
  | .error _ => trans

/-- The table after a sequence of calls. -/
def tx_run (trans : tx_table) (ops : List tx_op) : tx_table :=
  ops.foldl tx_step trans

/-! ## Auxiliary facts about the comparator -/

theorem ULONG_RANGE_eq : ULONG_RANGE = 18446744073709551616 := by
  unfold ULONG_RANGE; norm_num

theorem proper_end_mod (r : pmem_st) (h : r.proper) :
    (r.addr + r.size) % ULONG_RANGE = r.addr + r.size :=
  Nat.mod_eq_of_lt h.2

/-- On proper regions the comparator is the comparison of the unbounded
interval ends. -/
theorem cmp_proper (a b : pmem_st) (ha : a.proper) (hb : b.proper) :
    cmp_pmem_st a b =
      if a.addr + a.size ≤ b.addr then -1
      else if a.addr ≥ b.addr + b.size then 1 else 0 := by
  unfold cmp_pmem_st
  rw [proper_end_mod a ha, proper_end_mod b hb]

theorem share_byte_iff (a b : pmem_st) (ha : a.proper) (hb : b.proper) :
    share_byte a b ↔ a.addr < b.addr + b.size ∧ b.addr < a.addr + a.size := by
  unfold pmem_st.proper at ha hb
  constructor
  · rintro ⟨x, hx, hy⟩
    unfold pmem_st.has_byte at hx hy
    omega
  · intro h
    refine ⟨max a.addr b.addr, ?_, ?_⟩ <;> unfold pmem_st.has_byte <;>
      rcases Nat.le_total a.addr b.addr with hab | hab
    · rw [Nat.max_eq_right hab]; omega
    · rw [Nat.max_eq_left hab]; omega
    · rw [Nat.max_eq_right hab]; omega
    · rw [Nat.max_eq_left hab]; omega

theorem entirely_before_iff (a b : pmem_st) (ha : a.proper) (hb : b.proper) :
    entirely_before a b ↔ a.addr + a.size ≤ b.addr := by
  unfold pmem_st.proper at ha hb
  constructor
  · intro h
    have hlt := h (a.addr + a.size - 1) b.addr
      (by unfold pmem_st.has_byte; omega) (by unfold pmem_st.has_byte; omega)
    omega
  · intro h x y hx hy
    unfold pmem_st.has_byte at hx hy
    omega

theorem entirely_after_iff (a b : pmem_st) (ha : a.proper) (hb : b.proper) :
    entirely_after a b ↔ b.addr + b.size ≤ a.addr := by
  unfold pmem_st.proper at ha hb
  constructor
  · intro h
    have hlt := h a.addr (b.addr + b.size - 1)
      (by unfold pmem_st.has_byte; omega) (by unfold pmem_st.has_byte; omega)
    omega
  · intro h x y hx hy
    unfold pmem_st.has_byte at hx hy
    omega

theorem cmp_eq_neg_one_iff (a b : pmem_st) (ha : a.proper) (hb : b.proper) :
    cmp_pmem_st a b = -1 ↔ a.addr + a.size ≤ b.addr := by
  rw [cmp_proper a b ha hb]
  split_ifs <;> simp_all

theorem cmp_eq_one_iff (a b : pmem_st) (ha : a.proper) (hb : b.proper) :
    cmp_pmem_st a b = 1 ↔ b.addr + b.size ≤ a.addr := by
  rw [cmp_proper a b ha hb]
  unfold pmem_st.proper at ha hb
  split_ifs with h1 h2
  · simp; omega
  · simp; omega
  · simp; omega

theorem cmp_eq_zero_iff (a b : pmem_st) (ha : a.proper) (hb : b.proper) :
    cmp_pmem_st a b = 0 ↔ a.addr < b.addr + b.size ∧ b.addr < a.addr + a.size := by
  rw [cmp_proper a b ha hb]
  split_ifs with h1 h2
  · simp; omega
  · simp; omega
  · simp; omega

theorem cmp_range (a b : pmem_st) :
    cmp_pmem_st a b = -1 ∨ cmp_pmem_st a b = 0 ∨ cmp_pmem_st a b = 1 := by
  unfold cmp_pmem_st
  split_ifs <;> simp

/-- The comparator does not increase along the collation order of the stored
elements. -/
theorem cmp_antitone (q e1 e2 : pmem_st) (hq : q.proper) (h1 : e1.proper)
    (h2 : e2.proper) (h : cmp_pmem_st e1 e2 = -1) :
    cmp_pmem_st q e2 ≤ cmp_pmem_st q e1 := by
  have h12 := (cmp_eq_neg_one_iff e1 e2 h1 h2).1 h
  rw [cmp_proper q e1 hq h1, cmp_proper q e2 hq h2]
  unfold pmem_st.proper at hq h1 h2
  split_ifs <;> omega

/-! ## Auxiliary facts about the region set -/

theorem is_in_mapping_set_cons (q e : pmem_st) (l : OSet) :
    is_in_mapping_set q (e :: l) =
      if cmp_pmem_st q e = 0 then 1 else is_in_mapping_set q l := by
  unfold is_in_mapping_set
  by_cases h : cmp_pmem_st q e = 0 <;> simp [h]

theorem cmp_same_range (q e r : pmem_st) (h : e.addr = r.addr ∧ e.size = r.size) :
    cmp_pmem_st q e = cmp_pmem_st q r := by
  unfold cmp_pmem_st
  rw [h.1, h.2]

theorem cmp_self_ne_one (a : pmem_st) : cmp_pmem_st a a ≠ 1 := by
  unfold cmp_pmem_st
  split_ifs <;> simp

theorem is_in_mapping_set_eq_zero_cons (r e : pmem_st) (l : OSet)
    (h : is_in_mapping_set r (e :: l) = 0) :
    cmp_pmem_st r e ≠ 0 ∧ is_in_mapping_set r l = 0 := by
  rw [is_in_mapping_set_cons] at h
  by_cases h0 : cmp_pmem_st r e = 0
  · rw [if_pos h0] at h
    exact absurd h (by decide)
  · rw [if_neg h0] at h
    exact ⟨h0, h⟩

/-- Inserting a range that overlaps no stored record and removing it again
gives back the stored records, whatever the set does on an equal key. -/
theorem remove_add_region_new (f : pmem_st → pmem_st → pmem_st) (r : pmem_st)
    (S : OSet) (h : is_in_mapping_set r S = 0) :
    remove_region r (add_region f r S) = S := by
  induction S with
  | nil => simp [add_region, remove_region]
  | cons e rest ih =>
    obtain ⟨h0, hrest⟩ := is_in_mapping_set_eq_zero_cons r e rest h
    unfold add_region
    by_cases h1 : cmp_pmem_st r e = 1
    · rw [if_pos h1]
      unfold remove_region
      by_cases hm : e.addr = r.addr ∧ e.size = r.size
      · have hc := cmp_same_range r e r hm
        rw [h1] at hc
        exact absurd hc.symm (cmp_self_ne_one r)
      · rw [if_neg hm, ih hrest]
    · rw [if_neg h1]
      have hneg : cmp_pmem_st r e = -1 := by
        rcases cmp_range r e with hc | hc | hc
        · exact hc
        · exact absurd hc h0
        · exact absurd hc h1
      rw [if_pos hneg]
      simp [remove_region]

theorem mem_add_region_new (f : pmem_st → pmem_st → pmem_st) (r x : pmem_st)
    (S : OSet) (h : is_in_mapping_set r S = 0) (hx : x ∈ add_region f r S) :
    x = r ∨ x ∈ S := by
  induction S with
  | nil =>
    simp only [add_region, List.mem_singleton] at hx
    exact Or.inl hx
  | cons e rest ih =>
    obtain ⟨h0, hrest⟩ := is_in_mapping_set_eq_zero_cons r e rest h
    unfold add_region at hx
    by_cases h1 : cmp_pmem_st r e = 1
    · rw [if_pos h1, List.mem_cons] at hx
      rcases hx with hx | hx
      · exact Or.inr (by simp [hx])
      · rcases ih hrest hx with hr | hr
        · exact Or.inl hr
        · exact Or.inr (List.mem_cons_of_mem e hr)
    · rw [if_neg h1] at hx
      have hneg : cmp_pmem_st r e = -1 := by
        rcases cmp_range r e with hc | hc | hc
        · exact hc
        · exact absurd hc h0
        · exact absurd hc h1
      rw [if_pos hneg, List.mem_cons] at hx
      rcases hx with hx | hx
      · exact Or.inl hx
      · exact Or.inr hx

/-- Inserting a range that overlaps no stored record keeps the stored records
in comparator order, whatever the set does on an equal key. -/
theorem add_region_sorted (f : pmem_st → pmem_st → pmem_st) (r : pmem_st)
    (S : OSet) (hr : r.proper) (hS : ∀ e ∈ S, e.proper) (hs : sorted_regions S)
    (h : is_in_mapping_set r S = 0) : sorted_regions (add_region f r S) := by
  induction S with
  | nil => simp [add_region, sorted_regions]
  | cons e rest ih =>
    obtain ⟨h0, hrest⟩ := is_in_mapping_set_eq_zero_cons r e rest h
    have pe : e.proper := hS e (by simp)
    have prest : ∀ x ∈ rest, x.proper := fun x hx => hS x (List.mem_cons_of_mem e hx)
    unfold sorted_regions at hs
    rw [List.pairwise_cons] at hs
    obtain ⟨he, hsr⟩ := hs
    unfold add_region
    by_cases h1 : cmp_pmem_st r e = 1
    · rw [if_pos h1]
      unfold sorted_regions
      rw [List.pairwise_cons]
      refine ⟨?_, ih prest hsr hrest⟩
      intro x hx
      rcases mem_add_region_new f r x rest hrest hx with hxr | hxr
      · rw [hxr, cmp_eq_neg_one_iff e r pe hr]
        exact (cmp_eq_one_iff r e hr pe).1 h1
      · exact he x hxr
    · rw [if_neg h1]
      have hneg : cmp_pmem_st r e = -1 := by
        rcases cmp_range r e with hc | hc | hc
        · exact hc
        · exact absurd hc h0
        · exact absurd hc h1
      rw [if_pos hneg]
      unfold sorted_regions
      rw [List.pairwise_cons, List.pairwise_cons]
      refine ⟨?_, he, hsr⟩
      intro x hx
      rcases List.mem_cons.1 hx with hxe | hxr
      · rw [hxe]; exact hneg
      · have px := prest x hxr
        have h1x := (cmp_eq_neg_one_iff e x pe px).1 (he x hxr)
        have h2x := (cmp_eq_neg_one_iff r e hr pe).1 hneg
        rw [cmp_eq_neg_one_iff r x hr px]
        unfold pmem_st.proper at pe
        omega

/-! ## Auxiliary facts about the transaction table -/

theorem tx_active_filter (trans : tx_table) (T x : Nat) :
    tx_active (trans.filter (fun t => t.tx_id != x)) T
      = (tx_active trans T && (T != x)) := by
  unfold tx_active
  induction trans with
  | nil => simp
  | cons t rest ih =>
    rw [List.filter_cons]
    by_cases hx : t.tx_id = x
    · have hf : (t.tx_id != x) = false := by simp [hx]
      rw [hf]
      simp only [Bool.false_eq_true, if_false, List.any_cons]
      rw [ih]
      by_cases hT : T = x
      · simp [hT]
      · have hne : (t.tx_id == T) = false := by
          simp only [beq_eq_false_iff_ne]
          intro e
          exact hT (by rw [← e, hx])
        rw [hne, Bool.false_or]
    · have hf : (t.tx_id != x) = true := by simp [hx]
      rw [hf]
      simp only [if_true, List.any_cons]
      rw [ih]
      by_cases hT : t.tx_id = T
      · have hne : (T != x) = true := by
          simp only [bne_iff_ne]
          intro e
          exact hx (by rw [hT, e])
        simp [hT, hne]
      · have hne : (t.tx_id == T) = false := by
          simp only [beq_eq_false_iff_ne]
          exact hT
        rw [hne, Bool.false_or, Bool.false_or]

theorem tx_active_map (trans : tx_table) (T : Nat) (f : tx_info → tx_info)
    (hf : ∀ t, (f t).tx_id = t.tx_id) :
    tx_active (trans.map f) T = tx_active trans T := by
  unfold tx_active
  induction trans with
  | nil => simp
  | cons t rest ih => simp_all [List.any_cons]

theorem tx_active_add_obj (trans : tx_table) (T x base size : Nat) :
    tx_active (trans.map (fun t =>
      if t.tx_id = x then { t with regions := (base, size) :: t.regions } else t)) T
      = tx_active trans T :=
  tx_active_map trans T _ (fun t => by split_ifs <;> rfl)

theorem tx_active_remove_obj (trans : tx_table) (T x base size : Nat) :
    tx_active (trans.map (fun t =>
      if t.tx_id = x then { t with regions := t.regions.erase (base, size) } else t)) T
      = tx_active trans T :=
  tx_active_map trans T _ (fun t => by split_ifs <;> rfl)

theorem tx_active_add_thread (trans : tx_table) (T x tid : Nat) :
    tx_active (trans.map (fun t =>
      if t.tx_id = x then { t with threads := tid :: t.threads } else t)) T
      = tx_active trans T :=
  tx_active_map trans T _ (fun t => by split_ifs <;> rfl)

theorem tx_active_remove_thread (trans : tx_table) (T x tid : Nat) :
    tx_active (trans.map (fun t =>
      if t.tx_id = x then { t with threads := t.threads.erase tid } else t)) T
      = tx_active trans T :=
  tx_active_map trans T _ (fun t => by split_ifs <;> rfl)

/-- Only `remove_tx T` ends the activity of transaction `T`. -/
theorem tx_step_keeps_active (trans : tx_table) (T : Nat) (op : tx_op)
    (hop : op ≠ tx_op.remove T) (h : tx_active trans T = true) :
    tx_active (tx_step trans op) T = true := by
  cases op with
  | register x =>
    simp only [tx_step, tx_call, register_new_tx]
    split_ifs
    · exact h
    · simp only [tx_active, List.any_cons] at h ⊢
      simp [h]
  | remove x =>
    have hx : T ≠ x := fun e => hop (by rw [e])
    simp only [tx_step, tx_call, remove_tx]
    split_ifs
    · simp only [tx_active_filter, h]
      simp [hx]
    · exact h
  | add_obj x base size =>
    simp only [tx_step, tx_call, add_obj_to_tx]
    split_ifs
    · simp only [tx_active_add_obj, h]
    · exact h
  | remove_obj x base size =>
    simp only [tx_step, tx_call, remove_obj_from_tx]
    split_ifs
    · simp only [tx_active_remove_obj, h]
    · exact h
    · exact h
  | add_thread x tid =>
    simp only [tx_step, tx_call, add_thread_to_tx]
    split_ifs
    · simp only [tx_active_add_thread, h]
    · exact h
  | remove_thread x tid =>
    simp only [tx_step, tx_call, remove_thread_from_tx]
    split_ifs
    · simp only [tx_active_remove_thread, h]
    · exact h

/-- Only `register_new_tx T` makes transaction `T` active. -/
theorem tx_step_keeps_inactive (trans : tx_table) (T : Nat) (op : tx_op)
    (hop : op ≠ tx_op.register T) (h : tx_active trans T = false) :
    tx_active (tx_step trans op) T = false := by
  cases op with
  | register x =>
    have hx : x ≠ T := fun e => hop (by rw [e])
    simp only [tx_step, tx_call, register_new_tx]
    split_ifs
    · exact h
    · simp only [tx_active, List.any_cons] at h ⊢
      simp [h, hx]
  | remove x =>
    simp only [tx_step, tx_call, remove_tx]
    split_ifs
    · simp only [tx_active_filter, h]
      simp
    · exact h
  | add_obj x base size =>
    simp only [tx_step, tx_call, add_obj_to_tx]
    split_ifs
    · simp only [tx_active_add_obj, h]
    · exact h
  | remove_obj x base size =>
    simp only [tx_step, tx_call, remove_obj_from_tx]
    split_ifs
    · simp only [tx_active_remove_obj, h]
    · exact h
    · exact h
  | add_thread x tid =>
    simp only [tx_step, tx_call, add_thread_to_tx]
    split_ifs
    · simp only [tx_active_add_thread, h]
    · exact h
  | remove_thread x tid =>
    simp only [tx_step, tx_call, remove_thread_from_tx]
    split_ifs
    · simp only [tx_active_remove_thread, h]
    · exact h

theorem tx_run_keeps_active (T : Nat) (ops : List tx_op) :
    ∀ trans : tx_table, tx_op.remove T ∉ ops → tx_active trans T = true →
      tx_active (tx_run trans ops) T = true := by
  induction ops with
  | nil => intro trans _ h; exact h
  | cons op rest ih =>
    intro trans hops h
    have h1 : op ≠ tx_op.remove T := fun e => hops (by simp [e])
    have h2 : tx_op.remove T ∉ rest := fun m => hops (by simp [m])
    exact ih (tx_step trans op) h2 (tx_step_keeps_active trans T op h1 h)

theorem tx_run_keeps_inactive (T : Nat) (ops : List tx_op) :
    ∀ trans : tx_table, tx_op.register T ∉ ops → tx_active trans T = false →
      tx_active (tx_run trans ops) T = false := by
  induction ops with
  | nil => intro trans _ h; exact h
  | cons op rest ih =>
    intro trans hops h
    have h1 : op ≠ tx_op.register T := fun e => hops (by simp [e])
    have h2 : tx_op.register T ∉ rest := fun m => hops (by simp [m])
    exact ih (tx_step trans op) h2 (tx_step_keeps_inactive trans T op h1 h)

theorem tx_active_after_register (trans : tx_table) (T : Nat) :
    tx_active (tx_step trans (tx_op.register T)) T = true := by
  simp only [tx_step, tx_call, register_new_tx]
  split_ifs with h
  · exact h
  · simp [tx_active]

theorem tx_inactive_after_remove (trans trans2 : tx_table) (T : Nat)
    (h : remove_tx trans T = .ok trans2) : tx_active trans2 T = false := by
  unfold remove_tx at h
  split_ifs at h
  injection h with h
  rw [← h, tx_active_filter]
  simp

/-! ## Properties of the comparator -/

/-- C8: comparator equality is not transitive: `[0,10)` overlaps `[5,15)`,
`[5,15)` overlaps `[10,20)`, yet `[0,10)` and `[10,20)` do not compare equal;
all three regions have `size > 0` and a sum that does not wrap. -/
theorem cmp_eq_not_transitive :
    ∃ A B C : pmem_st, A.proper ∧ B.proper ∧ C.proper ∧
      cmp_pmem_st A B = 0 ∧ cmp_pmem_st B C = 0 ∧ cmp_pmem_st A C ≠ 0 :=
  ⟨mk_region 0 10, mk_region 5 10, mk_region 10 10,
    by decide, by decide, by decide, by decide, by decide, by decide⟩

/-- C1, as stated, fails on the code.  The zero-size record at address 5
compares equal to `[0,10)` although it has no byte at all, and the one-byte
record at the top address `2^64 - 1`, whose 64-bit sum wraps to 0, does not
compare equal to itself although it shares its byte with itself. -/
theorem cmp_zero_iff_share_byte_fails :
    ((mk_region 5 0).wf ∧ (mk_region 0 10).wf ∧
      ¬ (cmp_pmem_st (mk_region 5 0) (mk_region 0 10) = 0 ↔
          share_byte (mk_region 5 0) (mk_region 0 10))) ∧
    ((mk_region 18446744073709551615 1).wf ∧
      ¬ (cmp_pmem_st (mk_region 18446744073709551615 1)
            (mk_region 18446744073709551615 1) = 0 ↔
          share_byte (mk_region 18446744073709551615 1)
            (mk_region 18446744073709551615 1))) := by
  refine ⟨⟨by decide, by decide, ?_⟩, ⟨by decide, ?_⟩⟩
  · intro h
    obtain ⟨x, hx, _⟩ := h.1 (by decide)
    simp [pmem_st.has_byte, mk_region] at hx
    omega
  · intro h
    have hcmp := h.2 ⟨18446744073709551615, by decide, by decide⟩
    revert hcmp
    decide

/-- C1, amended: for all regions `A` and `B` with `size > 0` and a 64-bit sum
`addr + size` that does not wrap, `cmp_pmem_st A B = 0` if and only if `A` and
`B` share at least one byte. -/
theorem cmp_zero_iff_share_byte (A B : pmem_st) (hA : A.proper) (hB : B.proper) :
    cmp_pmem_st A B = 0 ↔ share_byte A B := by
  rw [cmp_eq_zero_iff A B hA hB, share_byte_iff A B hA hB]

theorem cmp_zero_iff_share_byte_witness :
    (mk_region 0 10).proper ∧ (mk_region 5 10).proper ∧
      (cmp_pmem_st (mk_region 0 10) (mk_region 5 10) = 0 ↔
        share_byte (mk_region 0 10) (mk_region 5 10)) :=
  ⟨by decide, by decide,
    cmp_zero_iff_share_byte (mk_region 0 10) (mk_region 5 10) (by decide) (by decide)⟩

/-- C2: when `A` ends exactly where `B` starts (`A.addr + A.size = B.addr`,
the sum read over the integers or in 64-bit arithmetic), the comparator
reports them equal in neither argument order: `cmp_pmem_st A B = -1` and
`cmp_pmem_st B A ≠ 0`. -/
theorem touching_never_equal (A B : pmem_st)
    (h : A.addr + A.size = B.addr ∨ (A.addr + A.size) % ULONG_RANGE = B.addr) :
    cmp_pmem_st A B = -1 ∧ cmp_pmem_st B A ≠ 0 := by
  have hle : (A.addr + A.size) % ULONG_RANGE ≤ B.addr := by
    rcases h with h | h
    · rw [← h]; exact Nat.mod_le _ _
    · exact Nat.le_of_eq h
  constructor
  · unfold cmp_pmem_st
    rw [if_pos hle]
  · unfold cmp_pmem_st
    split_ifs <;> simp

theorem touching_never_equal_witness :
    ((mk_region 0 10).addr + (mk_region 0 10).size = (mk_region 10 10).addr ∨
      ((mk_region 0 10).addr + (mk_region 0 10).size) % ULONG_RANGE
        = (mk_region 10 10).addr) ∧
    cmp_pmem_st (mk_region 0 10) (mk_region 10 10) = -1 ∧
    cmp_pmem_st (mk_region 10 10) (mk_region 0 10) ≠ 0 :=
  ⟨Or.inl (by decide),
    touching_never_equal (mk_region 0 10) (mk_region 10 10) (Or.inl (by decide))⟩

/-- C3, as stated, fails on the code.  A zero-size record, and a one-byte
record at the top address `2^64 - 1`, each compare `-1` against themselves:
the result is nonzero and is not the negation of the swapped comparison. -/
theorem cmp_antisymmetric_fails :
    ((mk_region 5 0).wf ∧
      ¬ (cmp_pmem_st (mk_region 5 0) (mk_region 5 0) ≠ 0 →
          cmp_pmem_st (mk_region 5 0) (mk_region 5 0)
            = - cmp_pmem_st (mk_region 5 0) (mk_region 5 0))) ∧
    ((mk_region 18446744073709551615 1).wf ∧
      ¬ (cmp_pmem_st (mk_region 18446744073709551615 1)
            (mk_region 18446744073709551615 1) ≠ 0 →
          cmp_pmem_st (mk_region 18446744073709551615 1)
              (mk_region 18446744073709551615 1)
            = - cmp_pmem_st (mk_region 18446744073709551615 1)
              (mk_region 18446744073709551615 1))) := by
  decide

/-- C3, amended: for all regions `A` and `B` with `size > 0` and a 64-bit sum
`addr + size` that does not wrap, a nonzero `cmp_pmem_st A B` equals
`- cmp_pmem_st B A`. -/
theorem cmp_antisymmetric (A B : pmem_st) (hA : A.proper) (hB : B.proper) :
    cmp_pmem_st A B ≠ 0 → cmp_pmem_st A B = - cmp_pmem_st B A := by
  intro _
  rw [cmp_proper A B hA hB, cmp_proper B A hB hA]
  unfold pmem_st.proper at hA hB
  split_ifs <;> omega

theorem cmp_antisymmetric_witness :
    (mk_region 0 10).proper ∧ (mk_region 20 10).proper ∧
      cmp_pmem_st (mk_region 0 10) (mk_region 20 10) ≠ 0 ∧
      cmp_pmem_st (mk_region 0 10) (mk_region 20 10)
        = - cmp_pmem_st (mk_region 20 10) (mk_region 0 10) :=
  ⟨by decide, by decide, by decide,
    cmp_antisymmetric (mk_region 0 10) (mk_region 20 10) (by decide) (by decide)
      (by decide)⟩

/-- C4: for regions `key` and `elem` with `size > 0` and a sum that does not
wrap, `cmp_pmem_st key elem` is one of `-1`, `0`, `1`; it is `-1` iff `key`
lies entirely before `elem`, `1` iff `key` lies entirely after `elem`, `0` iff
the two regions overlap; and exactly one of the three cases holds. -/
theorem cmp_classifies (key elem : pmem_st) (hk : key.proper) (he : elem.proper) :
    (cmp_pmem_st key elem = -1 ∨ cmp_pmem_st key elem = 0 ∨
      cmp_pmem_st key elem = 1) ∧
    (cmp_pmem_st key elem = -1 ↔ entirely_before key elem) ∧
    (cmp_pmem_st key elem = 1 ↔ entirely_after key elem) ∧
    (cmp_pmem_st key elem = 0 ↔ share_byte key elem) ∧
    ((entirely_before key elem ∧ ¬ entirely_after key elem ∧
        ¬ share_byte key elem) ∨
      (¬ entirely_before key elem ∧ entirely_after key elem ∧
        ¬ share_byte key elem) ∨
      (¬ entirely_before key elem ∧ ¬ entirely_after key elem ∧
        share_byte key elem)) := by
  refine ⟨cmp_range key elem, ?_, ?_, ?_, ?_⟩
  · rw [cmp_eq_neg_one_iff key elem hk he, entirely_before_iff key elem hk he]
  · rw [cmp_eq_one_iff key elem hk he, entirely_after_iff key elem hk he]
  · rw [cmp_eq_zero_iff key elem hk he, share_byte_iff key elem hk he]
  · rw [entirely_before_iff key elem hk he, entirely_after_iff key elem hk he,
      share_byte_iff key elem hk he]
    unfold pmem_st.proper at hk he
    omega

theorem cmp_classifies_witness :
    (mk_region 0 10).proper ∧ (mk_region 5 10).proper ∧
      cmp_pmem_st (mk_region 0 10) (mk_region 5 10) = 0 ∧
      share_byte (mk_region 0 10) (mk_region 5 10) ∧
      ¬ entirely_before (mk_region 0 10) (mk_region 5 10) :=
  have h := cmp_classifies (mk_region 0 10) (mk_region 5 10) (by decide) (by decide)
  have h0 : cmp_pmem_st (mk_region 0 10) (mk_region 5 10) = 0 := by decide
  ⟨by decide, by decide, h0, h.2.2.2.1.1 h0,
    fun hb => absurd (h.2.1.2 hb) (by decide)⟩

/-- C7: for regions `Q`, `E1`, `E2` with `size > 0` and sums that do not wrap,
if `E1` collates before `E2` then `cmp_pmem_st Q E1 ≥ cmp_pmem_st Q E2`; in
particular `Q` before `E1` gives `Q` before `E2`, and `Q` after `E2` gives `Q`
after `E1`.  Hence along stored regions sorted by the comparator the elements
a query overlaps form one contiguous run, and a probe of a binary or tree
search discards only elements the query does not overlap: everything after a
probe the query is before, everything ahead of a probe the query is after. -/
theorem lookup_sound (Q : pmem_st) (hQ : Q.proper) :
    (∀ E1 E2 : pmem_st, E1.proper → E2.proper → cmp_pmem_st E1 E2 = -1 →
      cmp_pmem_st Q E1 ≥ cmp_pmem_st Q E2 ∧
      (cmp_pmem_st Q E1 = -1 → cmp_pmem_st Q E2 = -1) ∧
      (cmp_pmem_st Q E2 = 1 → cmp_pmem_st Q E1 = 1)) ∧
    (∀ (pre mid post : List pmem_st) (E1 E2 : pmem_st),
      (∀ e ∈ pre ++ E1 :: (mid ++ E2 :: post), e.proper) →
      sorted_regions (pre ++ E1 :: (mid ++ E2 :: post)) →
      cmp_pmem_st Q E1 = 0 → cmp_pmem_st Q E2 = 0 →
      ∀ e ∈ mid, cmp_pmem_st Q e = 0) ∧
    (∀ (pre post : List pmem_st) (m : pmem_st),
      (∀ e ∈ pre ++ m :: post, e.proper) →
      sorted_regions (pre ++ m :: post) →
      (cmp_pmem_st Q m = -1 → ∀ e ∈ post, cmp_pmem_st Q e = -1) ∧
      (cmp_pmem_st Q m = 1 → ∀ e ∈ pre, cmp_pmem_st Q e = 1)) := by
  refine ⟨?_, ?_, ?_⟩
  · intro E1 E2 h1 h2 h
    have hle := cmp_antitone Q E1 E2 hQ h1 h2 h
    have r1 := cmp_range Q E1
    have r2 := cmp_range Q E2
    refine ⟨hle, ?_, ?_⟩ <;> intro hc <;> omega
  · intro pre mid post E1 E2 hp hs h1 h2 e he
    unfold sorted_regions at hs
    rw [List.pairwise_append] at hs
    obtain ⟨-, hs, -⟩ := hs
    rw [List.pairwise_cons] at hs
    obtain ⟨hE1, hs⟩ := hs
    rw [List.pairwise_append] at hs
    obtain ⟨-, -, hE2⟩ := hs
    have pe : e.proper := hp e (by simp [he])
    have p1 : E1.proper := hp E1 (by simp)
    have p2 : E2.proper := hp E2 (by simp)
    have a1 := cmp_antitone Q E1 e hQ p1 pe (hE1 e (by simp [he]))
    have a2 := cmp_antitone Q e E2 hQ pe p2 (hE2 e he E2 (by simp))
    omega
  · intro pre post m hp hs
    unfold sorted_regions at hs
    rw [List.pairwise_append] at hs
    obtain ⟨-, hs, hpre⟩ := hs
    rw [List.pairwise_cons] at hs
    obtain ⟨hpost, -⟩ := hs
    have pm : m.proper := hp m (by simp)
    constructor
    · intro hc e he
      have pe : e.proper := hp e (by simp [he])
      have a := cmp_antitone Q m e hQ pm pe (hpost e he)
      have r := cmp_range Q e
      omega
    · intro hc e he
      have pe : e.proper := hp e (by simp [he])
      have a := cmp_antitone Q e m hQ pe pm (hpre e he m (by simp))
      have r := cmp_range Q e
      omega

theorem lookup_sound_witness :
    (mk_region 12 3).proper ∧
    (cmp_pmem_st (mk_region 12 3) (mk_region 0 10)
        ≥ cmp_pmem_st (mk_region 12 3) (mk_region 20 10)) ∧
    (∀ e ∈ [mk_region 14 2], cmp_pmem_st (mk_region 9 20) e = 0) ∧
    (∀ e ∈ [mk_region 20 10, mk_region 40 1],
        cmp_pmem_st (mk_region 12 3) e = -1) :=
  ⟨by decide,
    ((lookup_sound (mk_region 12 3) (by decide)).1 (mk_region 0 10)
      (mk_region 20 10) (by decide) (by decide) (by decide)).1,
    (lookup_sound (mk_region 9 20) (by decide)).2.1 [mk_region 0 5]
      [mk_region 14 2] [mk_region 40 1] (mk_region 8 4) (mk_region 20 10)
      (by decide) (by unfold sorted_regions; decide) (by decide) (by decide),
    ((lookup_sound (mk_region 12 3) (by decide)).2.2 [mk_region 0 10]
      [mk_region 20 10, mk_region 40 1] (mk_region 16 2)
      (by decide) (by unfold sorted_regions; decide)).1 (by decide)⟩

/-- C9: for a record `A` with 64-bit `addr` and `size`, `cmp_pmem_st A A = 0`
if and only if `A.size > 0` and `A.addr + A.size < 2^64`; in every other case
(zero size, or a region reaching or passing the top of the address space)
`cmp_pmem_st A A = -1`. -/
theorem cmp_self (A : pmem_st) (hA : A.wf) :
    (cmp_pmem_st A A = 0 ↔ 0 < A.size ∧ A.addr + A.size < 2 ^ 64) ∧
    (¬ (0 < A.size ∧ A.addr + A.size < 2 ^ 64) → cmp_pmem_st A A = -1) := by
  unfold pmem_st.wf at hA
  unfold cmp_pmem_st
  rw [ULONG_RANGE_eq] at *
  norm_num
  split_ifs with h1
  · simp
    omega
  · omega

theorem cmp_self_witness :
    (mk_region 18446744073709551606 10).wf ∧
    (cmp_pmem_st (mk_region 18446744073709551606 10)
        (mk_region 18446744073709551606 10) = 0 ↔
      0 < (mk_region 18446744073709551606 10).size ∧
        (mk_region 18446744073709551606 10).addr
          + (mk_region 18446744073709551606 10).size < 2 ^ 64) ∧
    (¬ (0 < (mk_region 18446744073709551606 10).size ∧
        (mk_region 18446744073709551606 10).addr
          + (mk_region 18446744073709551606 10).size < 2 ^ 64) →
      cmp_pmem_st (mk_region 18446744073709551606 10)
        (mk_region 18446744073709551606 10) = -1) :=
  ⟨by decide, cmp_self (mk_region 18446744073709551606 10) (by decide)⟩

/-- C10: the comparator depends only on `addr` and `size`: records that agree
on these two fields compare alike, whatever their `block_num`, `value`,
`context` and `state`. -/
theorem cmp_depends_only_on_range (A A2 B B2 : pmem_st)
    (hAa : A.addr = A2.addr) (hAs : A.size = A2.size)
    (hBa : B.addr = B2.addr) (hBs : B.size = B2.size) :
    cmp_pmem_st A B = cmp_pmem_st A2 B2 := by
  unfold cmp_pmem_st
  rw [hAa, hAs, hBa, hBs]

theorem cmp_depends_only_on_range_witness :
    cmp_pmem_st
        { addr := 4096, size := 16, block_num := 3, value := 255, context := 7,
          state := store_state.STST_FLUSHED }
        { addr := 4100, size := 8, block_num := 0, value := 0, context := 0,
          state := store_state.STST_CLEAN }
      = cmp_pmem_st
        { addr := 4096, size := 16, block_num := 9, value := 1, context := 2,
          state := store_state.STST_DIRTY }
        { addr := 4100, size := 8, block_num := 5, value := 6, context := 1,
          state := store_state.STST_DIRTY } ∧
    cmp_pmem_st
        { addr := 4096, size := 16, block_num := 3, value := 255, context := 7,
          state := store_state.STST_FLUSHED }
        { addr := 4096, size := 16, block_num := 9, value := 1, context := 2,
          state := store_state.STST_DIRTY } = 0 :=
  ⟨cmp_depends_only_on_range _ _ _ _ rfl rfl rfl rfl, by decide⟩

/-! ## Properties of the modelled components -/

/-- C5: transaction lifecycle.  For every table and transaction id `T`:
calling `register_new_tx T` a second time with no `remove_tx T` among the
calls in between fails; `remove_tx T` on an unregistered `T` fails (also after
further calls that do not register `T`); and after a successful `remove_tx T`
(and further calls that do not register `T`) `add_obj_to_tx T base size`
fails for every `base` and `size`. -/
theorem tx_lifecycle (trans : tx_table) (T : Nat) :
    (∀ ops : List tx_op, tx_op.remove T ∉ ops →
      register_new_tx (tx_run (tx_step trans (tx_op.register T)) ops) T
        = .error tx_error.already_active) ∧
    (tx_active trans T = false →
      ∀ ops : List tx_op, tx_op.register T ∉ ops →
        remove_tx (tx_run trans ops) T = .error tx_error.not_active) ∧
    (∀ trans2 : tx_table, remove_tx trans T = .ok trans2 →
      ∀ ops : List tx_op, tx_op.register T ∉ ops →
        ∀ base size : Nat,
          add_obj_to_tx (tx_run trans2 ops) T base size
            = .error tx_error.not_active) := by
  refine ⟨?_, ?_, ?_⟩
  · intro ops hops
    have h := tx_run_keeps_active T ops _ hops (tx_active_after_register trans T)
    unfold register_new_tx
    rw [if_pos h]
  · intro hT ops hops
    have h := tx_run_keeps_inactive T ops trans hops hT
    unfold remove_tx
    rw [h]
    rfl
  · intro trans2 hrm ops hops base size
    have h := tx_run_keeps_inactive T ops trans2 hops
      (tx_inactive_after_remove trans trans2 T hrm)
    unfold add_obj_to_tx
    rw [h]
    rfl

theorem tx_lifecycle_witness :
    register_new_tx
        (tx_run (tx_step [⟨3, [], []⟩] (tx_op.register 7))
          [tx_op.add_obj 7 8192 256, tx_op.remove 3, tx_op.add_thread 7 1]) 7
      = .error tx_error.already_active ∧
    remove_tx (tx_run [⟨3, [], []⟩] [tx_op.add_obj 3 8192 256]) 7
      = .error tx_error.not_active ∧
    add_obj_to_tx (tx_run [⟨7, [(8192, 256)], []⟩] [tx_op.add_thread 7 5]) 3 8192 256
      = .error tx_error.not_active :=
  ⟨(tx_lifecycle [⟨3, [], []⟩] 7).1
      [tx_op.add_obj 7 8192 256, tx_op.remove 3, tx_op.add_thread 7 1] (by decide),
    (tx_lifecycle [⟨3, [], []⟩] 7).2.1 (by decide)
      [tx_op.add_obj 3 8192 256] (by decide),
    (tx_lifecycle [⟨3, [(0, 4)], [2]⟩, ⟨7, [(8192, 256)], []⟩] 3).2.2
      [⟨7, [(8192, 256)], []⟩] rfl [tx_op.add_thread 7 5] (by decide) 8192 256⟩

/-- C6, as stated, fails on an ordered set.  With `[0,10)` stored, inserting
and removing the identical range `[0,10)` leaves the set empty, so the query
`[5,6)` no longer finds a region, whether the set keeps the stored record,
takes the new one or merges the two.  Inserting and removing `[5,15)`, which
overlaps the stored `[0,10)` without matching it, changes the answer to the
query `[2,3)` when the new record takes the place of the stored one, and the
answer to `[12,13)` when the two are merged. -/
theorem add_remove_round_trip_fails :
    (is_in_mapping_set (mk_region 5 1)
        (remove_region (mk_region 0 10)
          (add_region keep_stored (mk_region 0 10) [mk_region 0 10]))
      ≠ is_in_mapping_set (mk_region 5 1) [mk_region 0 10]) ∧
    (is_in_mapping_set (mk_region 5 1)
        (remove_region (mk_region 0 10)
          (add_region take_new (mk_region 0 10) [mk_region 0 10]))
      ≠ is_in_mapping_set (mk_region 5 1) [mk_region 0 10]) ∧
    (is_in_mapping_set (mk_region 5 1)
        (remove_region (mk_region 0 10)
          (add_region merge_regions (mk_region 0 10) [mk_region 0 10]))
      ≠ is_in_mapping_set (mk_region 5 1) [mk_region 0 10]) ∧
    (is_in_mapping_set (mk_region 2 1)
        (remove_region (mk_region 5 10)
          (add_region take_new (mk_region 5 10) [mk_region 0 10]))
      ≠ is_in_mapping_set (mk_region 2 1) [mk_region 0 10]) ∧
    (is_in_mapping_set (mk_region 12 1)
        (remove_region (mk_region 5 10)
          (add_region merge_regions (mk_region 5 10) [mk_region 0 10]))
      ≠ is_in_mapping_set (mk_region 12 1) [mk_region 0 10]) := by
  decide

/-- C6, amended: insert/remove round trip for a range that overlaps no stored
range.  For every region set `S` and range `r` with
`is_in_mapping_set r S = 0`, after `add_region r` followed by
`remove_region r` with the identical range, `is_in_mapping_set q` returns for
every query `q` what it returned on `S`, whatever the set does on an equal
key. -/
theorem add_remove_round_trip (on_equal : pmem_st → pmem_st → pmem_st)
    (S : OSet) (r q : pmem_st) (hnew : is_in_mapping_set r S = 0) :
    is_in_mapping_set q (remove_region r (add_region on_equal r S))
      = is_in_mapping_set q S := by
  rw [remove_add_region_new on_equal r S hnew]

theorem add_remove_round_trip_witness :
    is_in_mapping_set (mk_region 10 10) [mk_region 0 10, mk_region 20 5] = 0 ∧
    is_in_mapping_set (mk_region 12 1)
        (remove_region (mk_region 10 10)
          (add_region keep_stored (mk_region 10 10)
            [mk_region 0 10, mk_region 20 5]))
      = is_in_mapping_set (mk_region 12 1) [mk_region 0 10, mk_region 20 5] ∧
    add_region keep_stored (mk_region 10 10) [mk_region 0 10, mk_region 20 5]
      = [mk_region 0 10, mk_region 10 10, mk_region 20 5] :=
  ⟨by decide,
    add_remove_round_trip keep_stored [mk_region 0 10, mk_region 20 5]
      (mk_region 10 10) (mk_region 12 1) (by decide),
    by decide⟩

end Pmemcheck

